import Mathlib

/-!
Verification development for the SQL database agent (`agent.py`).

The agent core consists of:
  * a keyword-based query-safety gate and `LIMIT` capping for `query_database`
    (`QueryDatabaseTool._is_safe_query`, `QueryDatabaseTool._add_limit`),
  * a regex-based response parser (`SQLDatabaseAgent._parse_llm_response`),
  * a rate-limited model client with backoff retry
    (`SQLDatabaseAgent._call_llm_with_retry`),
  * the step-bounded run loop (`SQLDatabaseAgent.run`) and the tool dispatcher
    (`SQLDatabaseAgent._execute_tool`).

Python strings are modelled as `List Char` (ASCII fragment); the regular
expressions of the source are compiled by hand into structurally recursive
scanning functions that implement exactly the leftmost-match/backtracking
behaviour of the Python `re` module on the concrete patterns that appear in the
source.  External collaborators (the sqlite connection, the model service, the
JSON decoder `json.loads`) are passed in as explicit oracles, following the
boundaries the source itself draws.
-/

namespace SQLAgent

/-- Text is modelled as a list of characters (Python `str`, ASCII fragment). -/
abbrev Str := List Char

instance {ε α : Type} [DecidableEq ε] [DecidableEq α] :
    DecidableEq (Except ε α) := fun a b =>
  match a, b with
  | .ok x, .ok y =>
    if h : x = y then .isTrue (by rw [h]) else .isFalse (by simp [h])
  | .error x, .error y =>
    if h : x = y then .isTrue (by rw [h]) else .isFalse (by simp [h])
  | .ok _, .error _ => .isFalse (by simp)
  | .error _, .ok _ => .isFalse (by simp)

/-- The whitespace characters stripped by Python `str.strip()` /
matched by the regex class `\s` (ASCII range). -/
def isSpaceChar (c : Char) : Bool :=
  c = ' ' || c = '\t' || c = '\n' || c = '\r' || c = '\x0b' || c = '\x0c'

/-- Python `str.lower()` on ASCII characters. -/
def toLowerChar (c : Char) : Char :=
  if 65 ≤ c.toNat && c.toNat ≤ 90 then Char.ofNat (c.toNat + 32) else c

/-- Python `str.upper()` on ASCII characters. -/
def toUpperChar (c : Char) : Char :=
  if 97 ≤ c.toNat && c.toNat ≤ 122 then Char.ofNat (c.toNat - 32) else c

/-- The regex class `\d` / Python decimal digits. -/
def isDigitChar (c : Char) : Bool := 48 ≤ c.toNat && c.toNat ≤ 57

/-- The regex class `\w` (ASCII): letters, digits and underscore. -/
def isWordChar (c : Char) : Bool :=
  (65 ≤ c.toNat && c.toNat ≤ 90) || (97 ≤ c.toNat && c.toNat ≤ 122) ||
    isDigitChar c || c = '_'

/-- Python `str.lower()`. -/
def lowerStr (s : Str) : Str := s.map toLowerChar

/-- Python `str.upper()`. -/
def upperStr (s : Str) : Str := s.map toUpperChar

/-- Python `str.lstrip()` (used as part of `strip`). -/
def stripLeft (s : Str) : Str := s.dropWhile isSpaceChar

/-- Python `str.strip()`: drop whitespace at both ends. -/
def strip (s : Str) : Str :=
  ((stripLeft s).reverse.dropWhile isSpaceChar).reverse

/-- Python `str.rstrip(';')`: drop trailing semicolons. -/
def rstripSemi (s : Str) : Str :=
  (s.reverse.dropWhile (· = ';')).reverse

/-- Python's substring test `needle in haystack`. -/
def containsSub (n : Str) : Str → Bool
  | [] => n.isEmpty
  | c :: t => n.isPrefixOf (c :: t) || containsSub n t

/-- The single-quote character `'` (used by Python reprs and SQL literals). -/
def sq : Char := Char.ofNat 39

/- ### Basic facts about `containsSub`, `strip` and friends -/

theorem containsSub_iff_occurs {n s : Str} : containsSub n s = true ↔ n <:+: s := by
  induction s with
  | nil =>
    simp only [containsSub, List.isEmpty_iff]
    constructor
    · rintro rfl; exact List.nil_infix
    · intro h; exact List.eq_nil_of_infix_nil h
  | cons c t ih =>
    simp only [containsSub, Bool.or_eq_true, List.isPrefixOf_iff_prefix, ih,
      List.infix_cons_iff]

theorem containsSub_of_occurs {n s : Str} (h : n <:+: s) : containsSub n s = true :=
  containsSub_iff_occurs.mpr h

/-- An occurrence of a pattern without any `P`-character cannot cross a
nonempty all-`P` block: it lies entirely to its left or entirely to its
right. -/
theorem infix_sep {P : Char → Bool} {n a mid b : Str}
    (hn : ∀ c ∈ n, P c = false) (hm : ∀ c ∈ mid, P c = true) (hmne : mid ≠ [])
    (h : n <:+: a ++ mid ++ b) : n <:+: a ∨ n <:+: b := by
  by_cases hn0 : n = []
  · exact Or.inl (hn0 ▸ List.nil_infix)
  obtain ⟨s, t, hst⟩ := h
  by_cases hc1 : s.length + n.length ≤ a.length
  · -- the occurrence lies inside `a`
    left
    have hp1 : s ++ n <+: a ++ mid ++ b := ⟨t, by simpa [List.append_assoc] using hst⟩
    have hp2 : a <+: a ++ mid ++ b := by
      rw [List.append_assoc]; exact List.prefix_append a (mid ++ b)
    have hp : s ++ n <+: a :=
      List.prefix_of_prefix_length_le hp1 hp2 (by simp; omega)
    obtain ⟨r, hr⟩ := hp
    exact ⟨s, r, by simpa [List.append_assoc] using hr⟩
  · by_cases hc2 : a.length + mid.length ≤ s.length
    · -- the occurrence lies inside `b`
      right
      have hs1 : n ++ t <:+ a ++ mid ++ b := ⟨s, by simpa [List.append_assoc] using hst⟩
      have hs2 : b <:+ a ++ mid ++ b := ⟨a ++ mid, by simp [List.append_assoc]⟩
      have hlen : (n ++ t).length ≤ b.length := by
        have := congrArg List.length hst
        simp only [List.length_append] at this ⊢
        omega
      have hs : n ++ t <:+ b := List.suffix_of_suffix_length_le hs1 hs2 hlen
      exact (List.prefix_append n t).isInfix.trans hs.isInfix
    · -- impossible: the occurrence would overlap the separator block
      exfalso
      push_neg at hc1 hc2
      have hnne : n.length ≠ 0 := by
        simpa [List.length_eq_zero] using hn0
      have hmlen : mid.length ≠ 0 := by
        simpa [List.length_eq_zero] using hmne
      set j := max s.length a.length with hj
      have hj1 : s.length ≤ j := le_max_left _ _
      have hj2 : a.length ≤ j := le_max_right _ _
      have hj3 : j < s.length + n.length := by omega
      have hj4 : j < a.length + mid.length := by omega
      have e1 : (s ++ (n ++ t))[j]? = n[j - s.length]? := by
        rw [List.getElem?_append_right hj1, List.getElem?_append_left (by omega)]
      have e2 : (a ++ (mid ++ b))[j]? = mid[j - a.length]? := by
        rw [List.getElem?_append_right hj2, List.getElem?_append_left (by omega)]
      have hst' : s ++ (n ++ t) = a ++ (mid ++ b) := by
        simpa [List.append_assoc] using hst
      rw [hst', e2] at e1
      obtain ⟨c, hc⟩ : ∃ c, n[j - s.length]? = some c := by
        have hlt : j - s.length < n.length := by omega
        exact ⟨n.get ⟨j - s.length, hlt⟩, by simp [hlt]⟩
      have hcm : c ∈ mid := List.getElem?_mem (e1.trans hc)
      have hcn : c ∈ n := List.getElem?_mem hc
      have := hn c hcn
      have := hm c hcm
      simp_all

/-- If the pattern has no `P`-character and the block `w` is all-`P`,
occurrences in `w ++ s` are exactly occurrences in `s` (for nonempty
patterns). -/
theorem infix_dropLeft_sep {P : Char → Bool} {n w s : Str}
    (hn : ∀ c ∈ n, P c = false) (hw : ∀ c ∈ w, P c = true) (hne : n ≠ [])
    (h : n <:+: w ++ s) : n <:+: s := by
  by_cases hw0 : w = []
  · subst hw0; simpa using h
  have := @infix_sep P n [] w s hn hw hw0 (by simpa using h)
  rcases this with h' | h'
  · obtain rfl := List.eq_nil_of_infix_nil h'
    simp at hne
  · exact h'

/-- Right-hand version of `infix_dropLeft_sep`. -/
theorem infix_dropRight_sep {P : Char → Bool} {n w s : Str}
    (hn : ∀ c ∈ n, P c = false) (hw : ∀ c ∈ w, P c = true) (hne : n ≠ [])
    (h : n <:+: s ++ w) : n <:+: s := by
  by_cases hw0 : w = []
  · subst hw0; simpa using h
  have := @infix_sep P n s w [] hn hw hw0 (by simpa using h)
  rcases this with h' | h'
  · exact h'
  · obtain rfl := List.eq_nil_of_infix_nil h'
    simp at hne

/-- `s` decomposes as whitespace, `strip s`, whitespace. -/
theorem strip_decomposition (s : Str) :
    ∃ w₁ w₂, s = w₁ ++ strip s ++ w₂ ∧
      (∀ c ∈ w₁, isSpaceChar c = true) ∧ (∀ c ∈ w₂, isSpaceChar c = true) := by
  refine ⟨s.takeWhile isSpaceChar,
    ((stripLeft s).reverse.takeWhile isSpaceChar).reverse, ?_, ?_, ?_⟩
  · conv_lhs => rw [← List.takeWhile_append_dropWhile (p := isSpaceChar) (l := s)]
    rw [List.append_assoc]
    congr 1
    show stripLeft s = strip s ++ ((stripLeft s).reverse.takeWhile isSpaceChar).reverse
    have h3 := List.takeWhile_append_dropWhile (p := isSpaceChar)
      (l := (stripLeft s).reverse)
    calc stripLeft s = (stripLeft s).reverse.reverse := (List.reverse_reverse _).symm
      _ = ((stripLeft s).reverse.takeWhile isSpaceChar ++
            (stripLeft s).reverse.dropWhile isSpaceChar).reverse := by rw [h3]
      _ = strip s ++ ((stripLeft s).reverse.takeWhile isSpaceChar).reverse := by
            rw [List.reverse_append]; rfl
  · intro c hc; exact List.mem_takeWhile_imp hc
  · intro c hc
    rw [List.mem_reverse] at hc
    exact List.mem_takeWhile_imp hc

/-- Containment of a nonempty whitespace-free pattern is unaffected by
`strip`. -/
theorem containsSub_strip {n s : Str} (hne : n ≠ [])
    (hn : ∀ c ∈ n, isSpaceChar c = false) :
    containsSub n (strip s) = containsSub n s := by
  obtain ⟨w₁, w₂, hdec, hw₁, hw₂⟩ := strip_decomposition s
  by_cases h : containsSub n (strip s) = true
  · rw [h]
    symm
    apply containsSub_of_occurs
    rw [hdec]
    exact (containsSub_iff_occurs.mp h).trans ⟨w₁, w₂, by simp [List.append_assoc]⟩
  · rw [Bool.not_eq_true] at h
    rw [h]
    symm
    rw [Bool.eq_false_iff]
    intro habs
    have h1 : n <:+: w₁ ++ (strip s ++ w₂) := by
      rw [← List.append_assoc, ← hdec]
      exact containsSub_iff_occurs.mp habs
    have h2 := infix_dropLeft_sep hn hw₁ hne h1
    have h3 := infix_dropRight_sep hn hw₂ hne h2
    rw [← containsSub_iff_occurs] at h3
    simp [h3] at h

/- ### Decimal rendering of naturals (Python f-string `{n}`) -/

/-- The decimal digit character for `d` (`d ≥ 9` clamps to `'9'`; only
`d < 10` is ever used). -/
def digitChar : Nat → Char
  | 0 => '0' | 1 => '1' | 2 => '2' | 3 => '3' | 4 => '4'
  | 5 => '5' | 6 => '6' | 7 => '7' | 8 => '8' | _ => '9'

/-- Decimal rendering with structural fuel (`fuel > log10 n` suffices; the
wrapper always supplies enough). -/
def natToStrAux : Nat → Nat → Str
  | 0, _ => []
  | fuel + 1, n =>
    if n < 10 then [digitChar n]
    else natToStrAux fuel (n / 10) ++ [digitChar (n % 10)]

/-- Decimal rendering of a natural number, as Python's `str(n)` / f-strings. -/
def natToStr (n : Nat) : Str := natToStrAux (n + 1) n

theorem digitChar_isDigit (d : Nat) : isDigitChar (digitChar d) = true := by
  rcases d with _ | _ | _ | _ | _ | _ | _ | _ | _ | _ <;> rfl

theorem natToStr_ne_nil (n : Nat) : natToStr n ≠ [] := by
  rw [natToStr, natToStrAux]
  split <;> simp

theorem natToStrAux_digits :
    ∀ fuel n, ∀ c ∈ natToStrAux fuel n, isDigitChar c = true := by
  intro fuel
  induction fuel with
  | zero => intro n c hc; simp [natToStrAux] at hc
  | succ f ih =>
    intro n c hc
    rw [natToStrAux] at hc
    split at hc
    · rw [List.mem_singleton] at hc
      exact hc ▸ digitChar_isDigit n
    · rcases List.mem_append.mp hc with h | h
      · exact ih (n / 10) c h
      · rw [List.mem_singleton] at h
        exact h ▸ digitChar_isDigit (n % 10)

theorem natToStr_digits (n : Nat) : ∀ c ∈ natToStr n, isDigitChar c = true :=
  natToStrAux_digits (n + 1) n

theorem toLowerChar_of_digit {c : Char} (h : isDigitChar c = true) :
    toLowerChar c = c := by
  rw [isDigitChar] at h
  rw [toLowerChar]
  have h1 : (65 ≤ c.toNat && c.toNat ≤ 90) = false := by
    simp only [Bool.and_eq_true, decide_eq_true_eq] at h ⊢
    simp only [Bool.and_eq_false_iff, decide_eq_false_iff_not]
    omega
  rw [h1]
  rfl

theorem lowerStr_of_digits : ∀ l : Str, (∀ c ∈ l, isDigitChar c = true) →
    lowerStr l = l := by
  intro l
  induction l with
  | nil => intro _; rfl
  | cons c t ih =>
    intro h
    simp only [lowerStr, List.map_cons]
    rw [toLowerChar_of_digit (h c (by simp))]
    have := ih (fun c' hc' => h c' (List.mem_cons_of_mem _ hc'))
    rw [lowerStr] at this
    rw [this]

theorem lowerStr_natToStr (n : Nat) : lowerStr (natToStr n) = natToStr n :=
  lowerStr_of_digits _ (natToStr_digits n)

/- ### The response parser (`SQLDatabaseAgent._parse_llm_response`)

The source uses three regexes, all with `re.DOTALL | re.IGNORECASE`:
  * `THOUGHT:\s*(.+?)(?=ACTION:|FINAL ANSWER:|$)`
  * `ACTION:\s*(\w+)\s*({.*?})`
  * `FINAL ANSWER:\s*(.+)`
Each scanning function below implements `re.search` (leftmost match with
backtracking) for its concrete pattern. -/

/-- Case-insensitive prefix test: the pattern (given pre-lowercased) against
the text lowered character by character (regex `re.IGNORECASE`). -/
def isPrefixCI : Str → Str → Bool
  | [], _ => true
  | _ :: _, [] => false
  | m :: ms, c :: cs => (toLowerChar c = m) && isPrefixCI ms cs

def thoughtMarker : Str := "thought:".data
def actionMarker : Str := "action:".data
def finalMarker : Str := "final answer:".data

/-- The suffix of the text following the leftmost (case-insensitive)
occurrence of `FINAL ANSWER:`. -/
def finalAnswerSuffix : Str → Option Str
  | [] => none
  | c :: t =>
    if isPrefixCI finalMarker (c :: t) then some ((c :: t).drop 13)
    else finalAnswerSuffix t

/-- `re.search(r'FINAL ANSWER:\s*(.+)', response, DOTALL | IGNORECASE)`
followed by `.group(1).strip()`.  The regex matches iff at least one
character follows the marker, and the stripped capture equals the stripped
suffix. -/
def finalAnswerOf (s : Str) : Option Str :=
  match finalAnswerSuffix s with
  | none => none
  | some after => if after.isEmpty then none else some (strip after)

/-- The suffix of the text following the leftmost (case-insensitive)
occurrence of `THOUGHT:`. -/
def thoughtSuffix : Str → Option Str
  | [] => none
  | c :: t =>
    if isPrefixCI thoughtMarker (c :: t) then some ((c :: t).drop 8)
    else thoughtSuffix t

/-- Distance to the first position at which the lookahead
`(?=ACTION:|FINAL ANSWER:|$)` holds (0 if it holds immediately). -/
def stopLen : Str → Nat
  | [] => 0
  | c :: t =>
    if isPrefixCI actionMarker (c :: t) || isPrefixCI finalMarker (c :: t) then 0
    else 1 + stopLen t

/-- `re.search(r'THOUGHT:\s*(.+?)(?=ACTION:|FINAL ANSWER:|$)', ...)` followed
by `.group(1).strip()`.  After the leftmost `THOUGHT:`, greedy `\s*` skips
the maximal whitespace run; lazy `.+?` then consumes at least one character,
up to the first later position where the lookahead holds.  If only
whitespace follows the marker, backtracking leaves a single whitespace
character in the capture (stripped to the empty string); if nothing follows,
the regex does not match at all. -/
def thoughtOf (s : Str) : Option Str :=
  match thoughtSuffix s with
  | none => none
  | some after =>
    if after.isEmpty then none
    else
      let k := (after.takeWhile isSpaceChar).length
      if k = after.length then some (strip after)
      else
        let rest := after.drop k
        some (strip (rest.take (1 + stopLen (rest.drop 1))))

/-- Index of the first `}` in the text, if any (regex `{.*?}` is lazy). -/
def braceIdx : Str → Option Nat
  | [] => none
  | c :: t => if c = '}' then some 0 else (braceIdx t).map (· + 1)

/-- Attempt the tail of the `ACTION:` pattern (`\s*(\w+)\s*({.*?})`) at the
text immediately following one occurrence of the marker.  Greedy `\s*` and
`\w+` cannot usefully backtrack here (whitespace and word characters are
disjoint, and a shortened word run leaves a word character where `{` is
required), so the attempt either succeeds as computed or fails outright. -/
def tryActionAt (after : Str) : Option (Str × Str) :=
  let rest := after.dropWhile isSpaceChar
  let w := rest.takeWhile isWordChar
  if w.isEmpty then none
  else
    match (rest.drop w.length).dropWhile isSpaceChar with
    | '{' :: body =>
      match braceIdx body with
      | some m => some (w, '{' :: (body.take m ++ ['}']))
      | none => none
    | _ => none

/-- `re.search(r'ACTION:\s*(\w+)\s*({.*?})', response, DOTALL | IGNORECASE)`:
scan occurrences of the marker left to right; a failed occurrence resumes
the search at the next position. -/
def actionOf : Str → Option (Str × Str)
  | [] => none
  | c :: t =>
    if isPrefixCI actionMarker (c :: t) then
      match tryActionAt ((c :: t).drop 7) with
      | some r => some r
      | none => actionOf t
    else actionOf t

/-- Decoded JSON parameter maps.  `json.loads` on a brace-delimited blob
yields a string-keyed object; the claims only ever exercise string values,
so values are modelled as strings as well. -/
abbrev Params := List (Str × Str)

/-- Python `dict` lookup (`params['answer']`, `kwargs` binding).  JSON
objects have unique keys, so first-match lookup is faithful. -/
def lookupParam (k : Str) : Params → Option Str
  | [] => none
  | (k', v) :: rest => if k' = k then some v else lookupParam k rest

/-- The sentinel action name returned for a final answer. -/
def finalActionName : Str := "FINAL_ANSWER".data

/-- `SQLDatabaseAgent._parse_llm_response`, parametrised by the JSON decoder
(`json.loads`, an external library call: `some` on success, `none` on
`json.JSONDecodeError`).  Returns the `(thought, action, params)` triple of
the source. -/
def parseLLMResponse (decode : Str → Option Params) (resp : Str) :
    Option Str × Option Str × Option Params :=
  let thought := thoughtOf resp
  match finalAnswerOf resp with
  | some ans => (thought, some finalActionName, some [("answer".data, ans)])
  | none =>
    match actionOf resp with
    | some (name, blob) =>
      match decode blob with
      | some ps => (thought, some (strip name), some ps)
      | none => (thought, none, none)
    | none => (thought, none, none)

/-- A parsed decision is a final answer iff the action slot holds the
sentinel. -/
def isFinalDecision (d : Option Str × Option Str × Option Params) : Bool :=
  d.2.1 = some finalActionName

/-- A parsed decision is a tool call iff the action slot holds a tool name
other than the sentinel, with decoded parameters present. -/
def isToolCallDecision (d : Option Str × Option Str × Option Params) : Bool :=
  match d.2.1 with
  | some a => a ≠ finalActionName && d.2.2.isSome
  | none => false

/- ### The tool layer (`ListTablesTool`, `DescribeTableTool`,
`QueryDatabaseTool`, `SQLDatabaseAgent._execute_tool`) -/

/-- Python `', '.join(...)`. -/
def joinSep (sep : Str) : List Str → Str
  | [] => []
  | [x] => x
  | x :: xs => x ++ sep ++ joinSep sep xs

/-- The result of `db.execute(...)`: column names (`cursor.description`) and
rows.  Row cells carry the textual rendering of the underlying values (the
claims under study never depend on the rendering itself). -/
structure Cursor where
  cols : List Str
  rows : List (List Str)

/-- The sqlite connection, as an oracle: each query text either yields a
cursor or fails with a `sqlite3.Error` message. -/
structure DB where
  exec : Str → Except Str Cursor

/-- The blocklist of `QueryDatabaseTool._is_safe_query`. -/
def dangerousKeywords : List Str :=
  ["INSERT".data, "UPDATE".data, "DELETE".data, "DROP".data,
   "ALTER".data, "CREATE".data, "REPLACE".data]

/-- `QueryDatabaseTool._is_safe_query`: uppercase, strip, check the prefix
`SELECT` and the absence of every blocklisted keyword. -/
def isSafeQuery (q : Str) : Bool :=
  let qU := strip (upperStr q)
  List.isPrefixOf "SELECT".data qU &&
    !(dangerousKeywords.any fun d => containsSub d qU)

/-- The safety condition exactly as the specification words it: the
case-insensitively trimmed statement starts with `SELECT`, and the
(case-insensitive, untrimmed) text contains none of the mutating
keywords. -/
def safeQuerySpec (q : Str) : Bool :=
  List.isPrefixOf "SELECT".data (strip (upperStr q)) &&
    !(dangerousKeywords.any fun d => containsSub d (upperStr q))

/-- `QueryDatabaseTool._add_limit`: if `LIMIT` does not occur
(case-insensitively), strip trailing semicolons and append ` LIMIT 100`. -/
def addLimit (q : Str) : Str :=
  if containsSub "LIMIT".data (upperStr q) then q
  else rstripSemi q ++ " LIMIT 100".data

/-- Rendering of one result row in `_format_results` (`f"{row}"`; abstract
stand-in for the Python tuple repr). -/
def rowRepr (cells : List Str) : Str :=
  '(' :: joinSep ", ".data cells ++ [')']

/-- The enumerated result lines of `_format_results`
(`enumerate(rows[:10], 1)`). -/
def enumLines : Nat → List Str → Str
  | _, [] => []
  | i, r :: rs =>
    "  ".data ++ natToStr i ++ ". ".data ++ r ++ ['\n'] ++ enumLines (i + 1) rs

/-- `QueryDatabaseTool._format_results`. -/
def formatResults (cols : List Str) (rows : List (List Str)) : Str :=
  "Columns: ".data ++ joinSep ", ".data cols ++ ['\n'] ++
    "Returned ".data ++ natToStr rows.length ++ " row(s):\n".data ++
    enumLines 1 ((rows.take 10).map rowRepr) ++
    (if rows.length > 10 then
      "  ... and ".data ++ natToStr (rows.length - 10) ++ " more rows\n".data
     else [])

def onlySelectMsg : Str :=
  "Error: Only SELECT queries are allowed (read-only mode)".data

def noRowsMsg : Str := "Query executed successfully. No rows returned.".data

/-- `QueryDatabaseTool.call`, instrumented: returns the text result together
with the query text actually passed to `db.execute` (`none` when the query
was rejected without touching the store). -/
def queryDatabaseRun (db : DB) (q : Str) : Str × Option Str :=
  if isSafeQuery q = false then (onlySelectMsg, none)
  else
    let q2 := addLimit q
    match db.exec q2 with
    | .error e =>
      ("SQL Error: ".data ++ e ++ ". Check your query syntax.".data, some q2)
    | .ok cur =>
      if cur.rows.isEmpty then (noRowsMsg, some q2)
      else (formatResults cur.cols cur.rows, some q2)

/-- `QueryDatabaseTool.call` (result text only). -/
def queryDatabaseCall (db : DB) (q : Str) : Str := (queryDatabaseRun db q).1

def listTablesSQL : Str :=
  "SELECT name FROM sqlite_master WHERE type=".data ++ [sq] ++ "table".data ++
    [sq] ++ " ORDER BY name".data

/-- `ListTablesTool.call`.  The body has no `try`/`except`, so a driver
fault (`sqlite3.Error`) propagates to the caller: the result is
`Except`. -/
def listTablesCall (db : DB) : Except Str Str :=
  match db.exec listTablesSQL with
  | .error e => .error e
  | .ok cur =>
    let tables := cur.rows.map fun r => r.headD []
    if tables.isEmpty then .ok "No tables found".data
    else .ok ("Available tables: ".data ++ joinSep ", ".data tables)

def pragmaSQL (t : Str) : Str := "PRAGMA table_info(".data ++ t ++ ")".data

def countSQL (t : Str) : Str := "SELECT COUNT(*) FROM ".data ++ t

/-- `DescribeTableTool.call` with `table_name` bound: the whole body is
wrapped in `try ... except sqlite3.Error`, so it always returns text. -/
def describeTableCall (db : DB) (t : Str) : Str :=
  match db.exec (pragmaSQL t) with
  | .error e => "Error describing table: ".data ++ e
  | .ok cur =>
    if cur.rows.isEmpty then
      "Table ".data ++ [sq] ++ t ++ [sq] ++ " not found".data
    else
      let schema := "Table: ".data ++ t ++ "\nColumns:\n".data ++
        (cur.rows.map fun col =>
          "  - ".data ++ col.getD 1 [] ++ " (".data ++ col.getD 2 [] ++ ")\n".data).flatten
      match db.exec (countSQL t) with
      | .error e => "Error describing table: ".data ++ e
      | .ok c2 => schema ++ "Row count: ".data ++ (c2.rows.headD []).headD []

/-- `str(TypeError)` when `Tool.call(**params)` misses a required positional
argument. -/
def missingArgMsg (cls arg : Str) : Str :=
  cls ++ ".call() missing 1 required positional argument: ".data ++
    [sq] ++ arg ++ [sq]

def unknownToolMsg (name : Str) : Str :=
  "Error: Unknown tool ".data ++ [sq] ++ name ++ [sq]

def toolNames : List Str :=
  ["list_tables".data, "describe_table".data, "query_database".data]

/-- `SQLDatabaseAgent._execute_tool`: unknown names yield a text result;
otherwise the named tool is invoked via `call(**params)`.  Keyword binding
raises `TypeError` (`.error`) when a required parameter is absent from the
map; extra keys are absorbed by `**kwargs`. -/
def executeTool (db : DB) (toolName : Str) (params : Params) :
    Except Str Str :=
  if toolNames.contains toolName = false then .ok (unknownToolMsg toolName)
  else if toolName = "list_tables".data then listTablesCall db
  else if toolName = "describe_table".data then
    match lookupParam "table_name".data params with
    | some t => .ok (describeTableCall db t)
    | none => .error (missingArgMsg "DescribeTableTool".data "table_name".data)
  else
    match lookupParam "query".data params with
    | some q => .ok (queryDatabaseCall db q)
    | none => .error (missingArgMsg "QueryDatabaseTool".data "query".data)

/- ### The rate-limited model client (`SQLDatabaseAgent._call_llm_with_retry`)

Wall-clock time is modelled with exact rationals.  Each attempt of the
retry loop is driven by an oracle entry: how much external time passes
before the pacing check, how long `generate_content` takes, and whether it
returns text or raises (with the exception text). -/

/-- Client configuration: `self.request_delay` (default `2.0`) and
`self.max_retries` (default `3`). -/
structure ClientCfg where
  requestDelay : ℚ
  maxRetries : Nat

/-- The mutable pacing state: `self.last_request_time` and the current
clock. -/
structure CState where
  lastRequestTime : ℚ
  now : ℚ
deriving DecidableEq

/-- One oracle entry for one attempt of the retry loop. -/
structure Attempt where
  gapBefore : ℚ
  sendDuration : ℚ
  outcome : Except Str Str

/-- Observable timed events of the client. -/
inductive Ev
  | paceSleep (d : ℚ)
  | sendStart (t : ℚ)
  | sendEnd (t : ℚ) (success : Bool)
  | backoffSleep (d : ℚ)
deriving DecidableEq

/-- The rate-limit test of the `except` branch:
`"429" in error_msg or "quota" in error_msg.lower()`. -/
def is429OrQuota (e : Str) : Bool :=
  containsSub "429".data e || containsSub "quota".data (lowerStr e)

/-- The number captured by `re.search(r'retry in (\d+\.?\d*)', error_msg)`:
at least one digit after a (case-sensitive) `retry in ` occurrence, then
greedily an optional dot and further digits; a digit-less occurrence makes
the search resume at the next position. -/
def numAt (s : Str) : Option Str :=
  let d1 := s.takeWhile isDigitChar
  if d1.isEmpty then none
  else
    match s.drop d1.length with
    | '.' :: r2 => some (d1 ++ '.' :: r2.takeWhile isDigitChar)
    | _ => some d1

def retryInMarker : Str := "retry in ".data

def scanRetryDelay : Str → Option Str
  | [] => none
  | c :: t =>
    if retryInMarker.isPrefixOf (c :: t) then
      match numAt ((c :: t).drop 9) with
      | some ns => some ns
      | none => scanRetryDelay t
    else scanRetryDelay t

/-- Numeric value of a digit string. -/
def natOfDigits (ds : Str) : Nat :=
  ds.foldl (fun acc c => acc * 10 + (c.toNat - 48)) 0

/-- Python `float(...)` on a string matched by `\d+\.?\d*`, as an exact
rational. -/
def ratOfNumStr (ns : Str) : ℚ :=
  let d1 := ns.takeWhile isDigitChar
  match ns.drop d1.length with
  | '.' :: frac => (natOfDigits d1 : ℚ) + (natOfDigits frac : ℚ) / 10 ^ frac.length
  | _ => (natOfDigits d1 : ℚ)

/-- The backoff delay for one rate-limited attempt: the suggested delay
parsed from the failure text if present, otherwise `(2 ** attempt) * 10`. -/
def backoffDelay (e : Str) (attempt : Nat) : ℚ :=
  match scanRetryDelay e with
  | some ns => ratOfNumStr ns
  | none => (2 ^ attempt : ℚ) * 10

/-- The exception text raised when the retry budget is exhausted on
rate-limit failures. -/
def rlExceededMsg (maxRetries : Nat) : Str :=
  "Rate limit exceeded after ".data ++ natToStr maxRetries ++
    " retries. Please wait and try again.".data

/-- The exception text of the fall-through `raise` after the loop (reachable
only with `max_retries = 0`). -/
def failedMaxMsg : Str := "Failed to call LLM after maximum retries".data

/-- The pacing guard at the top of each attempt:
`time_since_last = time.time() - self.last_request_time`, and a blocking
`time.sleep(self.request_delay - time_since_last)` when the elapsed time
falls short.  Returns the sleep event (if any) and the clock value at which
the send starts. -/
def paceStep (cfg : ClientCfg) (st : CState) (gap : ℚ) : List Ev × ℚ :=
  let n1 := st.now + gap
  let elapsed := n1 - st.lastRequestTime
  if elapsed < cfg.requestDelay then
    ([Ev.paceSleep (cfg.requestDelay - elapsed)],
     st.lastRequestTime + cfg.requestDelay)
  else ([], n1)

/-- `SQLDatabaseAgent._call_llm_with_retry`: the retry loop, one recursive
step per `for attempt in range(self.max_retries)` iteration.  Returns the
final pacing state, the timed event trace, and either the response text or
the propagated exception text. -/
def callLLM (cfg : ClientCfg) (atts : Nat → Attempt) :
    Nat → Nat → CState → CState × List Ev × Except Str Str
  | 0, _, st => (st, [], .error failedMaxMsg)
  | fuel + 1, a, st =>
    let att := atts a
    let paceEvs := (paceStep cfg st att.gapBefore).1
    let n2 := (paceStep cfg st att.gapBefore).2
    let nEnd := n2 + att.sendDuration
    match att.outcome with
    | .ok resp =>
      (⟨nEnd, nEnd⟩, paceEvs ++ [Ev.sendStart n2, Ev.sendEnd nEnd true], .ok resp)
    | .error e =>
      if is429OrQuota e then
        let d := backoffDelay e a
        let evs := paceEvs ++ [Ev.sendStart n2, Ev.sendEnd nEnd false,
          Ev.backoffSleep d]
        let st' : CState := ⟨st.lastRequestTime, nEnd + d⟩
        if a = cfg.maxRetries - 1 then
          (st', evs, .error (rlExceededMsg cfg.maxRetries))
        else
          let r := callLLM cfg atts fuel (a + 1) st'
          (r.1, evs ++ r.2.1, r.2.2)
      else
        (⟨st.lastRequestTime, nEnd⟩,
         paceEvs ++ [Ev.sendStart n2, Ev.sendEnd nEnd false], .error e)

/-- One full client call (`for attempt in range(self.max_retries)`). -/
def clientCall (cfg : ClientCfg) (atts : Nat → Attempt) (st : CState) :
    CState × List Ev × Except Str Str :=
  callLLM cfg atts cfg.maxRetries 0 st

/-- A sequence of client calls through the same agent instance, threading
the shared pacing state and concatenating the event traces. -/
def clientCalls (cfg : ClientCfg) : List (Nat → Attempt) → CState →
    CState × List Ev
  | [], st => (st, [])
  | a :: rest, st =>
    let r := clientCall cfg a st
    let r' := clientCalls cfg rest r.1
    (r'.1, r.2.1 ++ r'.2)

/-- Spacing invariant: every `sendStart` is at least `delay` after the
completion of the latest earlier successful send (`last` initially). -/
def pacedFrom (delay : ℚ) : ℚ → List Ev → Bool
  | _, [] => true
  | last, Ev.sendStart t :: rest =>
    decide (last + delay ≤ t) && pacedFrom delay last rest
  | _, Ev.sendEnd t true :: rest => pacedFrom delay t rest
  | last, _ :: rest => pacedFrom delay last rest

/-- The completion time of the latest successful send in a trace
(`last` if none). -/
def lastSuccEnd : ℚ → List Ev → ℚ
  | l, [] => l
  | _, Ev.sendEnd t true :: rest => lastSuccEnd t rest
  | l, _ :: rest => lastSuccEnd l rest

/-- The start times of the sends in a trace. -/
def sendStarts : List Ev → List ℚ
  | [] => []
  | Ev.sendStart t :: rest => t :: sendStarts rest
  | _ :: rest => sendStarts rest

/-- The backoff sleeps of a trace. -/
def backoffs : List Ev → List ℚ
  | [] => []
  | Ev.backoffSleep d :: rest => d :: backoffs rest
  | _ :: rest => backoffs rest

/- ### The agent run loop (`SQLDatabaseAgent.run`) -/

/-- The fixed message returned when the loop ends without a final answer
(also reached via `break`). -/
def maxStepsMsg : Str :=
  "FINAL ANSWER: Maximum steps reached. Could not complete the query fully.".data

/-- The corrective transcript entry for an unparseable model output. -/
def correctiveMsg : Str :=
  "Error: Could not parse action. Please use format: ACTION: tool_name\x7b\"param\": \"value\"\x7d".data

/-- `f"Error in step {step + 1}: {str(e)}"`. -/
def errInStep (i : Nat) (e : Str) : Str :=
  "Error in step ".data ++ natToStr (i + 1) ++ ": ".data ++ e

/-- The abort test of the `except` handler:
`"rate limit" in error.lower() or "quota" in error.lower()`. -/
def breakText (e : Str) : Bool :=
  containsSub "rate limit".data (lowerStr e) ||
    containsSub "quota".data (lowerStr e)

/-- `str(KeyError('answer'))` from `params['answer']` on a map without the
key. -/
def keyErrAnswer : Str := [sq] ++ "answer".data ++ [sq]

/-- `str(TypeError)` from subscripting `None` (unreachable from the parser,
modelled for totality of the translation). -/
def noneSubscriptMsg : Str :=
  [sq] ++ "NoneType".data ++ [sq] ++ " object is not subscriptable".data

/-- `json.dumps(params)` (modulo JSON string escaping, which the claims
never exercise). -/
def jsonDumps (ps : Params) : Str :=
  '\x7b' :: joinSep ", ".data
    (ps.map fun p => '"' :: p.1 ++ "\": \"".data ++ p.2 ++ ['"']) ++ ['\x7d']

def stepThoughtLog (i : Nat) (t : Str) : Str :=
  '\n' :: "STEP ".data ++ natToStr (i + 1) ++ '\n' :: "THOUGHT: ".data ++ t

def finalLog (ans : Str) : Str := "FINAL ANSWER: ".data ++ ans

def actionLog (a : Str) (ps : Params) : Str :=
  "ACTION: ".data ++ a ++ jsonDumps ps

def obsLog (o : Str) : Str := "OBSERVATION: ".data ++ o

/-- The outcome of one `run` invocation: the returned answer text, the final
`conversation_history`, and how many `_call_llm_with_retry` invocations the
loop performed. -/
structure RunResult where
  answer : Str
  history : List Str
  llmCalls : Nat
deriving DecidableEq

/-- The `except Exception as e` handler of the loop body: append the error
entry; `break` (returning the fixed exhaustion message) if the error text
mentions a rate limit or quota, otherwise fall through to the next
iteration `k`. -/
def handleExc (i : Nat) (hist : List Str) (calls : Nat) (e : Str)
    (k : List Str → Nat → RunResult) : RunResult :=
  let err := errInStep i e
  if breakText err then ⟨maxStepsMsg, hist ++ [err], calls⟩
  else k (hist ++ [err]) calls

/-- The `for step in range(self.max_steps)` loop of `SQLDatabaseAgent.run`,
parametrised by the per-step client outcome `llm` (text or exception text of
`_call_llm_with_retry`), the tool dispatcher `exec`
(`_execute_tool`, `.error` when it raises), and the JSON decoder. -/
def runSteps (llm : Nat → Except Str Str)
    (exec : Str → Params → Except Str Str)
    (decode : Str → Option Params) :
    Nat → Nat → List Str → Nat → RunResult
  | 0, _, hist, calls => ⟨maxStepsMsg, hist, calls⟩
  | fuel + 1, i, hist, calls =>
    match llm i with
    | .error e =>
      handleExc i hist (calls + 1) e
        (fun h c => runSteps llm exec decode fuel (i + 1) h c)
    | .ok out =>
      match parseLLMResponse decode out with
      | (thought, action, params) =>
        let hist1 := match thought with
          | some t => if t.isEmpty then hist else hist ++ [stepThoughtLog i t]
          | none => hist
        match action with
        | some a =>
          if a = finalActionName then
            match params with
            | some ps =>
              match lookupParam "answer".data ps with
              | some ans => ⟨ans, hist1 ++ [finalLog ans], calls + 1⟩
              | none =>
                handleExc i hist1 (calls + 1) keyErrAnswer
                  (fun h c => runSteps llm exec decode fuel (i + 1) h c)
            | none =>
              handleExc i hist1 (calls + 1) noneSubscriptMsg
                (fun h c => runSteps llm exec decode fuel (i + 1) h c)
          else if a.isEmpty then
            runSteps llm exec decode fuel (i + 1) (hist1 ++ [correctiveMsg])
              (calls + 1)
          else
            match params with
            | some ps =>
              let hist2 := hist1 ++ [actionLog a ps]
              match exec a ps with
              | .ok obs =>
                runSteps llm exec decode fuel (i + 1) (hist2 ++ [obsLog obs])
                  (calls + 1)
              | .error e =>
                handleExc i hist2 (calls + 1) e
                  (fun h c => runSteps llm exec decode fuel (i + 1) h c)
            | none =>
              runSteps llm exec decode fuel (i + 1) (hist1 ++ [correctiveMsg])
                (calls + 1)
        | none =>
          runSteps llm exec decode fuel (i + 1) (hist1 ++ [correctiveMsg])
            (calls + 1)

/-- `SQLDatabaseAgent.run(query)`. -/
def runAgent (llm : Nat → Except Str Str)
    (exec : Str → Params → Except Str Str)
    (decode : Str → Option Params) (maxSteps : Nat) (query : Str) : RunResult :=
  runSteps llm exec decode maxSteps 0 ["User Query: ".data ++ query] 0

/- ### Transfer lemmas for the abort check `breakText` -/

theorem infix_ext_left {n a b : Str} (h : n <:+: b) : n <:+: a ++ b := by
  obtain ⟨s, t, hst⟩ := h
  exact ⟨a ++ s, t, by rw [← hst]; simp [List.append_assoc]⟩

theorem infix_ext_right {n a b : Str} (h : n <:+: a) : n <:+: a ++ b := by
  obtain ⟨s, t, hst⟩ := h
  exact ⟨s, t ++ b, by rw [← hst]; simp [List.append_assoc]⟩

theorem not_prefix_of_head_ne {c a : Char} {n xs : Str}
    (hne : a ≠ c) : ¬ (a :: n) <+: c :: xs := by
  rintro ⟨t, ht⟩
  exact hne (List.cons.injEq .. ▸ ht).1

/-- A pattern with no digit, no leading `':'`/`' '`, absent from
`error in step ` and from the lowered exception text, is absent from the
whole lowered error entry `Error in step {i+1}: {e}`. -/
theorem not_contains_errEntry {a : Char} {n : Str} (i : Nat) {e : Str}
    (hd : ∀ c ∈ a :: n, isDigitChar c = false)
    (hpre : containsSub (a :: n) "error in step ".data = false)
    (hc1 : a ≠ ':') (hc2 : a ≠ ' ')
    (he : containsSub (a :: n) (lowerStr e) = false) :
    containsSub (a :: n) (lowerStr (errInStep i e)) = false := by
  have hlow : lowerStr (errInStep i e) =
      "error in step ".data ++ natToStr (i + 1) ++
        (':' :: ' ' :: lowerStr e) := by
    rw [errInStep, lowerStr]
    simp only [List.map_append]
    rw [show List.map toLowerChar "Error in step ".data =
        "error in step ".data from by decide]
    rw [show List.map toLowerChar (natToStr (i + 1)) = natToStr (i + 1) from
      lowerStr_natToStr (i + 1)]
    rw [show List.map toLowerChar ": ".data = [':', ' '] from by decide]
    simp [lowerStr, List.append_assoc]
  rw [hlow, Bool.eq_false_iff]
  intro habs
  have hinf := containsSub_iff_occurs.mp habs
  rcases infix_sep (P := isDigitChar) hd (natToStr_digits (i + 1))
      (natToStr_ne_nil (i + 1)) hinf with h1 | h1
  · exact absurd (containsSub_of_occurs h1) (by simp [hpre])
  · rcases List.infix_cons_iff.mp h1 with h2 | h2
    · exact not_prefix_of_head_ne hc1 h2
    rcases List.infix_cons_iff.mp h2 with h3 | h3
    · exact not_prefix_of_head_ne hc2 h3
    · exact absurd (containsSub_of_occurs h3) (by simp [he])

/-- `breakText` is insensitive to the `Error in step {i+1}: ` prefix the
loop adds to the exception text. -/
theorem breakText_errInStep {e : Str} (i : Nat) (h : breakText e = false) :
    breakText (errInStep i e) = false := by
  rw [breakText, Bool.or_eq_false_iff] at h ⊢
  obtain ⟨h1, h2⟩ := h
  refine ⟨?_, ?_⟩
  · exact not_contains_errEntry i (by decide) (by decide) (by decide)
      (by decide) h1
  · exact not_contains_errEntry i (by decide) (by decide) (by decide)
      (by decide) h2

/-- The rate-limit-exhaustion text always trips the abort check, whatever
the step index and retry budget. -/
theorem breakText_errInStep_rl (i mr : Nat) :
    breakText (errInStep i (rlExceededMsg mr)) = true := by
  rw [breakText, Bool.or_eq_true]
  left
  apply containsSub_of_occurs
  rw [errInStep, lowerStr]
  simp only [List.map_append]
  apply infix_ext_left
  rw [rlExceededMsg]
  simp only [List.map_append]
  apply infix_ext_right
  apply infix_ext_right
  have h : List.isPrefixOf "rate limit".data
      (List.map toLowerChar "Rate limit exceeded after ".data) = true := by
    decide
  exact (List.isPrefixOf_iff_prefix.mp h).isInfix

/- ### Shared concrete oracles for witnesses and counterexamples -/

/-- A store whose driver faults on every query. -/
def trivDB : DB := ⟨fun _ => .error "no database".data⟩

/-- A tool dispatcher that always returns an observation (used to
instantiate runs whose claims do not touch the tools). -/
def execOk : Str → Params → Except Str Str := fun _ _ => .ok "ok".data

/- ### C2: the query-safety gate -/

theorem isSafeQuery_eq_spec (q : Str) : isSafeQuery q = safeQuerySpec q := by
  rw [isSafeQuery, safeQuerySpec]
  have h := fun (d : Str) (h1 : d ≠ []) (h2 : ∀ c ∈ d, isSpaceChar c = false) =>
    containsSub_strip (s := upperStr q) h1 h2
  simp only [dangerousKeywords, List.any_cons, List.any_nil]
  rw [h "INSERT".data (by decide) (by decide),
    h "UPDATE".data (by decide) (by decide),
    h "DELETE".data (by decide) (by decide),
    h "DROP".data (by decide) (by decide),
    h "ALTER".data (by decide) (by decide),
    h "CREATE".data (by decide) (by decide),
    h "REPLACE".data (by decide) (by decide)]

/-- C2: `query_database` rejects a query with the fixed explanatory message
and never passes anything to the store unless the statement,
case-insensitively trimmed, starts with `SELECT` and contains none of the
mutating keywords anywhere in its (case-insensitive) text; exactly the
admitted queries reach the store (with the `LIMIT` cap applied). -/
theorem queryDatabase_rejects_nonSelect (db : DB) (q : Str) :
    (safeQuerySpec q = false →
      queryDatabaseRun db q = (onlySelectMsg, none)) ∧
    (safeQuerySpec q = true →
      (queryDatabaseRun db q).2 = some (addLimit q)) := by
  constructor
  · intro h
    rw [queryDatabaseRun, isSafeQuery_eq_spec, h]
    simp
  · intro h
    rw [queryDatabaseRun, isSafeQuery_eq_spec, h]
    simp only [Bool.true_eq_false, if_false]
    rcases hdb : db.exec (addLimit q) with e | cur
    · simp [hdb]
    · simp only [hdb]
      split <;> simp

/-- C2 witness: the spec's own example `DELETE FROM orders` is rejected
without touching the store. -/
theorem queryDatabase_rejects_nonSelect_witness :
    safeQuerySpec "DELETE FROM orders".data = false ∧
    queryDatabaseRun trivDB "DELETE FROM orders".data = (onlySelectMsg, none) :=
  ⟨by decide, (queryDatabase_rejects_nonSelect trivDB "DELETE FROM orders".data).1
    (by decide)⟩

/- ### C8: the LIMIT cap -/

/-- C8 counterexample: `SELECT 1;` is accepted and has no `LIMIT`, but the
text passed to the store is not the query with ` LIMIT 100` appended — the
trailing semicolon is stripped first. -/
theorem addLimit_semicolon_counterexample :
    isSafeQuery "SELECT 1;".data = true ∧
    containsSub "LIMIT".data (upperStr "SELECT 1;".data) = false ∧
    (queryDatabaseRun trivDB "SELECT 1;".data).2 =
      some "SELECT 1 LIMIT 100".data ∧
    "SELECT 1 LIMIT 100".data ≠ "SELECT 1;".data ++ " LIMIT 100".data := by
  decide

/-- C8 amended: for an accepted query, if `LIMIT` does not occur
(case-insensitively) the executed text is the query with trailing
semicolons stripped and ` LIMIT 100` appended; if `LIMIT` occurs anywhere,
the query is executed unmodified. -/
theorem addLimit_behavior (db : DB) (q : Str) (hsafe : isSafeQuery q = true) :
    (containsSub "LIMIT".data (upperStr q) = false →
      (queryDatabaseRun db q).2 = some (rstripSemi q ++ " LIMIT 100".data)) ∧
    (containsSub "LIMIT".data (upperStr q) = true →
      (queryDatabaseRun db q).2 = some q) := by
  have hexe : (queryDatabaseRun db q).2 = some (addLimit q) := by
    rw [queryDatabaseRun, hsafe]
    simp only [Bool.true_eq_false, if_false]
    rcases hdb : db.exec (addLimit q) with e | cur
    · simp [hdb]
    · simp only [hdb]
      split <;> simp
  constructor
  · intro h
    rw [hexe, addLimit, h]
    simp
  · intro h
    rw [hexe, addLimit, h]
    simp

/-- C8 witness: the spec's examples `SELECT * FROM orders` (capped) and
`SELECT * FROM orders LIMIT 5` (unmodified). -/
theorem addLimit_behavior_witness :
    (queryDatabaseRun trivDB "SELECT * FROM orders".data).2 =
      some "SELECT * FROM orders LIMIT 100".data ∧
    (queryDatabaseRun trivDB "SELECT * FROM orders LIMIT 5".data).2 =
      some "SELECT * FROM orders LIMIT 5".data := by
  constructor
  · have h := (addLimit_behavior trivDB "SELECT * FROM orders".data
      (by decide)).1 (by decide)
    rw [h]
    decide
  · exact (addLimit_behavior trivDB "SELECT * FROM orders LIMIT 5".data
      (by decide)).2 (by decide)

/- ### C10: the tool dispatcher -/

/-- C10 counterexample: invoking `describe_table` with an empty parameter
map raises a `TypeError` that escapes `_execute_tool` — it is not returned
as a descriptive text result. -/
theorem executeTool_missing_param_counterexample :
    executeTool trivDB "describe_table".data [] =
      .error (missingArgMsg "DescribeTableTool".data "table_name".data) ∧
    (executeTool trivDB "describe_table".data []).isOk = false := by
  decide

/-- C10 amended: an unknown tool name yields a descriptive text result
without raising, and `describe_table` with a bound `table_name` never
raises — a malformed name that faults the driver is rendered as an error
text — but a parameter map missing a tool's required parameter raises a
`TypeError` out of the registry (which only the run loop's handler
catches). -/
theorem executeTool_amended :
    (∀ db n p, toolNames.contains n = false →
      executeTool db n p = .ok (unknownToolMsg n)) ∧
    (∀ db p t, lookupParam "table_name".data p = some t →
      executeTool db "describe_table".data p = .ok (describeTableCall db t)) ∧
    (∀ db t e, db.exec (pragmaSQL t) = .error e →
      describeTableCall db t = "Error describing table: ".data ++ e) ∧
    (∀ db p, lookupParam "table_name".data p = none →
      executeTool db "describe_table".data p =
        .error (missingArgMsg "DescribeTableTool".data "table_name".data)) := by
  refine ⟨?_, ?_, ?_, ?_⟩
  · intro db n p h
    rw [executeTool, if_pos h]
  · intro db p t h
    rw [executeTool, if_neg (by decide), if_neg (by decide), if_pos (by decide), h]
  · intro db t e h
    rw [describeTableCall, h]
  · intro db p h
    rw [executeTool, if_neg (by decide), if_neg (by decide), if_pos (by decide), h]

/-- C10 witness: concrete instances of each conjunct. -/
theorem executeTool_amended_witness :
    executeTool trivDB "no_such_tool".data [] =
      .ok (unknownToolMsg "no_such_tool".data) ∧
    executeTool trivDB "describe_table".data
        [("table_name".data, "ghost_table".data)] =
      .ok (describeTableCall trivDB "ghost_table".data) ∧
    describeTableCall trivDB "bad(name".data =
      "Error describing table: no database".data ∧
    executeTool trivDB "describe_table".data [("other".data, "x".data)] =
      .error (missingArgMsg "DescribeTableTool".data "table_name".data) :=
  ⟨executeTool_amended.1 trivDB "no_such_tool".data [] (by decide),
   executeTool_amended.2.1 trivDB _ "ghost_table".data (by decide),
   executeTool_amended.2.2.1 trivDB "bad(name".data "no database".data rfl,
   executeTool_amended.2.2.2 trivDB [("other".data, "x".data)] (by decide)⟩

/- ### C3, C9: the response parser -/

theorem isPrefixCI_eq (m : Str) : ∀ s, isPrefixCI m s = m.isPrefixOf (lowerStr s) := by
  induction m with
  | nil => intro s; cases s <;> rfl
  | cons a ms ih =>
    intro s
    cases s with
    | nil => rfl
    | cons c cs =>
      rw [isPrefixCI]
      show _ = List.isPrefixOf (a :: ms) (toLowerChar c :: lowerStr cs)
      rw [List.isPrefixOf_cons₂, ih cs]
      by_cases he : toLowerChar c = a
      · simp [he]
      · have h2 : (a == toLowerChar c) = false := by
          simp only [beq_eq_false_iff_ne, ne_eq]
          exact fun hx => he hx.symm
        simp [he, h2]

/-- A text without a (case-insensitive) `FINAL ANSWER:` occurrence has no
final-answer suffix. -/
theorem finalAnswerSuffix_eq_none {s : Str}
    (h : containsSub finalMarker (lowerStr s) = false) :
    finalAnswerSuffix s = none := by
  induction s with
  | nil => rfl
  | cons c t ih =>
    rw [lowerStr, List.map_cons] at h
    rw [containsSub, Bool.or_eq_false_iff] at h
    obtain ⟨h1, h2⟩ := h
    rw [finalAnswerSuffix, isPrefixCI_eq]
    have h1' : List.isPrefixOf finalMarker (lowerStr (c :: t)) = false := by
      rw [lowerStr, List.map_cons]
      exact h1
    rw [h1']
    simp only [Bool.false_eq_true, if_false]
    exact ih h2

/-- C3 counterexample: the text `FINAL ANSWER:` contains the marker but the
parser does not return a final answer (the regex `FINAL ANSWER:\s*(.+)`
requires at least one character after the marker); the decision comes out
with no action at all. -/
theorem parse_final_marker_no_text_counterexample :
    containsSub finalMarker (lowerStr "FINAL ANSWER:".data) = true ∧
    parseLLMResponse (fun _ => none) "FINAL ANSWER:".data =
      (none, none, none) ∧
    isFinalDecision (parseLLMResponse (fun _ => none) "FINAL ANSWER:".data) =
      false := by
  decide

/-- C3 amended: whenever at least one character follows a (case-insensitive)
`FINAL ANSWER:` marker, the parser returns the final-answer decision
carrying everything after the marker trimmed of surrounding whitespace —
regardless of any `ACTION:` marker in the same text — and no parsed
decision is simultaneously a tool call and a final answer. -/
theorem parse_final_answer_precedence (decode : Str → Option Params)
    (s after : Str) (h : finalAnswerSuffix s = some after) (hne : after ≠ []) :
    parseLLMResponse decode s =
      (thoughtOf s, some finalActionName, some [("answer".data, strip after)]) ∧
    ∀ (d : Str → Option Params) (u : Str),
      ¬(isFinalDecision (parseLLMResponse d u) = true ∧
        isToolCallDecision (parseLLMResponse d u) = true) := by
  constructor
  · rw [parseLLMResponse, finalAnswerOf, h]
    have hie : after.isEmpty = false := by
      rcases after with _ | ⟨c, t⟩
      · simp at hne
      · rfl
    simp [hie]
  · intro d u
    rintro ⟨hf, ht⟩
    rw [isFinalDecision] at hf
    rw [isToolCallDecision] at ht
    rw [decide_eq_true_eq] at hf
    rw [hf] at ht
    simp at ht

/-- C3 witness: a text with an earlier `ACTION:` still parses as a final
answer. -/
theorem parse_final_answer_precedence_witness :
    finalAnswerSuffix
        "ACTION: list_tables\x7b\x7d FINAL ANSWER: done".data =
      some " done".data ∧
    actionOf "ACTION: list_tables\x7b\x7d FINAL ANSWER: done".data =
      some ("list_tables".data, "\x7b\x7d".data) ∧
    parseLLMResponse (fun _ => none)
        "ACTION: list_tables\x7b\x7d FINAL ANSWER: done".data =
      (thoughtOf "ACTION: list_tables\x7b\x7d FINAL ANSWER: done".data,
        some finalActionName, some [("answer".data, strip " done".data)]) :=
  ⟨by decide, by decide,
    (parse_final_answer_precedence (fun _ => none) _ " done".data
      (by decide) (by decide)).1⟩

/-- C9: when no final answer is present, an `ACTION:` match whose
brace-delimited blob fails to decode yields the unparseable decision — no
action, no parameters — while the extracted thought is still returned; the
parser is a total function into decisions by construction. -/
theorem parse_decode_failure (decode : Str → Option Params)
    (s name blob : Str) (hfin : finalAnswerOf s = none)
    (hact : actionOf s = some (name, blob)) (hdec : decode blob = none) :
    parseLLMResponse decode s = (thoughtOf s, none, none) := by
  rw [parseLLMResponse, hfin, hact]
  simp [hdec]

/-- C9 witness: `THOUGHT: hm` followed by an action whose blob the decoder
rejects. -/
theorem parse_decode_failure_witness :
    parseLLMResponse (fun _ => none) "THOUGHT: hm\nACTION: tool \x7bbad\x7d".data =
      (thoughtOf "THOUGHT: hm\nACTION: tool \x7bbad\x7d".data, none, none) ∧
    thoughtOf "THOUGHT: hm\nACTION: tool \x7bbad\x7d".data = some "hm".data :=
  ⟨parse_decode_failure (fun _ => none) _ "tool".data "\x7bbad\x7d".data
      (by decide) (by decide) rfl,
    by decide⟩

/- ### C6, C7: the rate-limited client -/

/-- `[a, a+1, ..., a+fuel-1]`: the attempt (or step) indices consumed by a
loop. -/
def stepRange (a : Nat) : Nat → List Nat
  | 0 => []
  | fuel + 1 => a :: stepRange (a + 1) fuel

theorem backoffs_append : ∀ l1 l2 : List Ev,
    backoffs (l1 ++ l2) = backoffs l1 ++ backoffs l2 := by
  intro l1 l2
  induction l1 with
  | nil => rfl
  | cons e t ih => cases e <;> simp [backoffs, ih]

theorem sendStarts_append : ∀ l1 l2 : List Ev,
    sendStarts (l1 ++ l2) = sendStarts l1 ++ sendStarts l2 := by
  intro l1 l2
  induction l1 with
  | nil => rfl
  | cons e t ih => cases e <;> simp [sendStarts, ih]

theorem lastSuccEnd_append : ∀ (l1 l2 : List Ev) (l : ℚ),
    lastSuccEnd l (l1 ++ l2) = lastSuccEnd (lastSuccEnd l l1) l2 := by
  intro l1
  induction l1 with
  | nil => intro l2 l; rfl
  | cons e t ih =>
    intro l2 l
    cases e with
    | sendEnd q b => cases b <;> simp [lastSuccEnd, ih]
    | paceSleep d => simp [lastSuccEnd, ih]
    | sendStart q => simp [lastSuccEnd, ih]
    | backoffSleep d => simp [lastSuccEnd, ih]

theorem pacedFrom_append : ∀ (l1 l2 : List Ev) (d l : ℚ),
    pacedFrom d l (l1 ++ l2) =
      (pacedFrom d l l1 && pacedFrom d (lastSuccEnd l l1) l2) := by
  intro l1
  induction l1 with
  | nil => intro l2 d l; rfl
  | cons e t ih =>
    intro l2 d l
    cases e with
    | sendEnd q b => cases b <;> simp [pacedFrom, lastSuccEnd, ih]
    | paceSleep q => simp [pacedFrom, lastSuccEnd, ih]
    | sendStart q => simp [pacedFrom, lastSuccEnd, ih, Bool.and_assoc]
    | backoffSleep q => simp [pacedFrom, lastSuccEnd, ih]

theorem backoffs_paceStep (cfg : ClientCfg) (st : CState) (g : ℚ) :
    backoffs (paceStep cfg st g).1 = [] := by
  rw [paceStep]; split <;> rfl

theorem sendStarts_paceStep (cfg : ClientCfg) (st : CState) (g : ℚ) :
    sendStarts (paceStep cfg st g).1 = [] := by
  rw [paceStep]; split <;> rfl

theorem lastSuccEnd_paceStep (cfg : ClientCfg) (st : CState) (g l : ℚ) :
    lastSuccEnd l (paceStep cfg st g).1 = l := by
  rw [paceStep]; split <;> rfl

theorem pacedFrom_paceStep (cfg : ClientCfg) (st : CState) (g d l : ℚ) :
    pacedFrom d l (paceStep cfg st g).1 = true := by
  rw [paceStep]; split <;> rfl

/-- The send never starts before the minimum spacing has elapsed since
`last_request_time`. -/
theorem paceStep_spacing (cfg : ClientCfg) (st : CState) (g : ℚ) :
    st.lastRequestTime + cfg.requestDelay ≤ (paceStep cfg st g).2 := by
  rw [paceStep]
  split
  · simp
  · rename_i h
    rw [not_lt] at h
    simp only
    linarith

/-- All-rate-limited runs of the retry loop: the loop walks every remaining
attempt index, sleeps the parsed-or-exponential backoff delay after each
failure, and exhausts with the fixed rate-limit message. -/
theorem callLLM_all429 (cfg : ClientCfg) (atts : Nat → Attempt)
    (E : Nat → Str) (hE : ∀ k, (atts k).outcome = .error (E k))
    (hq : ∀ k, is429OrQuota (E k) = true) :
    ∀ fuel a st, a + fuel = cfg.maxRetries → 1 ≤ fuel →
      (callLLM cfg atts fuel a st).2.2 = .error (rlExceededMsg cfg.maxRetries) ∧
      backoffs (callLLM cfg atts fuel a st).2.1 =
        (stepRange a fuel).map (fun k => backoffDelay (E k) k) ∧
      (sendStarts (callLLM cfg atts fuel a st).2.1).length = fuel := by
  intro fuel
  induction fuel with
  | zero => intro a st _ h1; omega
  | succ f ih =>
    intro a st hsum _
    rw [callLLM]
    rw [hE a]
    simp only [hq a, if_true]
    rcases Nat.eq_zero_or_pos f with rfl | hf
    · have hlast : a = cfg.maxRetries - 1 := by omega
      rw [if_pos hlast]
      refine ⟨rfl, ?_, ?_⟩
      · simp [backoffs_append, backoffs_paceStep, backoffs, stepRange]
      · simp [sendStarts_append, sendStarts_paceStep, sendStarts]
    · have hlast : ¬(a = cfg.maxRetries - 1) := by omega
      rw [if_neg hlast]
      have h3 := ih (a + 1)
        ⟨st.lastRequestTime,
          (paceStep cfg st (atts a).gapBefore).2 + (atts a).sendDuration +
            backoffDelay (E a) a⟩
        (by omega) (by omega)
      refine ⟨h3.1, ?_, ?_⟩
      · rw [backoffs_append, backoffs_append, backoffs_paceStep]
        simp only [backoffs]
        rw [h3.2.1]
        simp [stepRange]
      · rw [sendStarts_append, sendStarts_append, sendStarts_paceStep]
        simp only [sendStarts, List.nil_append, List.length_append,
          List.length_cons, List.length_nil, h3.2.2]
        omega

/-- C6: on each rate-limited attempt the client sleeps the delay parsed
from the failure text (`retry in <number>`) when present, otherwise
`(2 ** attempt) * 10` with attempts counted from 0; with the default budget
of 3 it performs exactly 3 attempts and then fails with the fixed
rate-limit-exhaustion message, which is what the run loop's abort check
recognises. -/
theorem client_rate_limit_retry (delay : ℚ) (atts : Nat → Attempt)
    (E : Nat → Str) (hE : ∀ k, (atts k).outcome = .error (E k))
    (hq : ∀ k, is429OrQuota (E k) = true) (st : CState) :
    (clientCall ⟨delay, 3⟩ atts st).2.2 = .error (rlExceededMsg 3) ∧
    backoffs (clientCall ⟨delay, 3⟩ atts st).2.1 =
      [backoffDelay (E 0) 0, backoffDelay (E 1) 1, backoffDelay (E 2) 2] ∧
    (sendStarts (clientCall ⟨delay, 3⟩ atts st).2.1).length = 3 ∧
    breakText (rlExceededMsg 3) = true := by
  have h := callLLM_all429 ⟨delay, 3⟩ atts E hE hq 3 0 st rfl (by omega)
  exact ⟨h.1, by simpa [stepRange] using h.2.1, h.2.2, by decide⟩

/-- The failure texts of the C6 witness scenario: the first attempt carries
an embedded suggested delay, later ones do not. -/
def wErr : Nat → Str := fun k =>
  if k = 0 then "429 retry in 7.5 exceeded".data else "quota exhausted".data

/-- The attempt oracle of the C6 witness scenario. -/
def wAtts : Nat → Attempt := fun k => ⟨0, 0, .error (wErr k)⟩

/-- C6 witness: three failures, the first with an embedded suggested delay
(`retry in 7.5` giving 7.5 time units), the others falling back to
exponential backoff (20 and 40). -/
theorem client_rate_limit_retry_witness :
    (clientCall ⟨2, 3⟩ wAtts ⟨0, 0⟩).2.2 = .error (rlExceededMsg 3) ∧
    backoffs (clientCall ⟨2, 3⟩ wAtts ⟨0, 0⟩).2.1 = [15/2, 20, 40] := by
  have h := client_rate_limit_retry 2 wAtts wErr (fun k => rfl)
    (fun k => by
      cases k with
      | zero => decide
      | succ n =>
        rw [show wErr (n + 1) = "quota exhausted".data from rfl]
        decide) ⟨0, 0⟩
  have h0 : backoffDelay (wErr 0) 0 = 15 / 2 := by
    rw [show wErr 0 = "429 retry in 7.5 exceeded".data from rfl]
    rw [backoffDelay, show scanRetryDelay "429 retry in 7.5 exceeded".data =
      some "7.5".data from by decide]
    show (natOfDigits "7".data : ℚ) +
      (natOfDigits "5".data : ℚ) / 10 ^ ("5".data).length = 15 / 2
    rw [show natOfDigits "7".data = 7 from rfl,
      show natOfDigits "5".data = 5 from rfl]
    norm_num
  have h1 : backoffDelay (wErr 1) 1 = 20 := by
    rw [show wErr 1 = "quota exhausted".data from rfl]
    rw [backoffDelay, show scanRetryDelay "quota exhausted".data = none from
      by decide]
    show (2 : ℚ) ^ 1 * 10 = 20
    norm_num
  have h2 : backoffDelay (wErr 2) 2 = 40 := by
    rw [show wErr 2 = "quota exhausted".data from rfl]
    rw [backoffDelay, show scanRetryDelay "quota exhausted".data = none from
      by decide]
    show (2 : ℚ) ^ 2 * 10 = 40
    norm_num
  exact ⟨h.1, by rw [h.2.1, h0, h1, h2]⟩

/-- The pacing invariant of a single client call: every send in the trace
starts at least `request_delay` after the completion of the latest earlier
successful send, and the final `last_request_time` is exactly the
completion time of the latest successful send (unchanged if none). -/
theorem callLLM_paced (cfg : ClientCfg) (atts : Nat → Attempt) :
    ∀ fuel a st,
      pacedFrom cfg.requestDelay st.lastRequestTime
        (callLLM cfg atts fuel a st).2.1 = true ∧
      (callLLM cfg atts fuel a st).1.lastRequestTime =
        lastSuccEnd st.lastRequestTime (callLLM cfg atts fuel a st).2.1 := by
  intro fuel
  induction fuel with
  | zero => intro a st; exact ⟨rfl, rfl⟩
  | succ f ih =>
    intro a st
    rw [callLLM]
    cases hout : (atts a).outcome with
    | ok resp =>
      -- success: the send starts after the pacing guard, and the new
      -- baseline is its completion time
      simp only [hout]
      constructor
      · simp only [pacedFrom_append, pacedFrom_paceStep, lastSuccEnd_paceStep,
          pacedFrom, Bool.true_and, Bool.and_true, decide_eq_true_eq]
        exact paceStep_spacing cfg st _
      · simp [lastSuccEnd_append, lastSuccEnd_paceStep, lastSuccEnd]
    | error e =>
      simp only [hout]
      by_cases hq : is429OrQuota e = true
      · rw [if_pos hq]
        by_cases hlast : a = cfg.maxRetries - 1
        · rw [if_pos hlast]
          constructor
          · simp only [pacedFrom_append, pacedFrom_paceStep,
              lastSuccEnd_paceStep, pacedFrom, Bool.true_and, Bool.and_true,
              decide_eq_true_eq]
            exact paceStep_spacing cfg st _
          · simp [lastSuccEnd_append, lastSuccEnd_paceStep, lastSuccEnd]
        · rw [if_neg hlast]
          have h3 := ih (a + 1)
            ⟨st.lastRequestTime,
              (paceStep cfg st (atts a).gapBefore).2 + (atts a).sendDuration +
                backoffDelay e a⟩
          constructor
          · simp only [pacedFrom_append, pacedFrom_paceStep,
              lastSuccEnd_append, lastSuccEnd_paceStep, pacedFrom, lastSuccEnd,
              Bool.true_and, Bool.and_true, Bool.and_eq_true,
              decide_eq_true_eq]
            exact ⟨paceStep_spacing cfg st _, h3.1⟩
          · simp only [lastSuccEnd_append, lastSuccEnd_paceStep, lastSuccEnd]
            exact h3.2
      · rw [if_neg hq]
        constructor
        · simp only [pacedFrom_append, pacedFrom_paceStep,
            lastSuccEnd_paceStep, pacedFrom, Bool.true_and, Bool.and_true,
            decide_eq_true_eq]
          exact paceStep_spacing cfg st _
        · simp [lastSuccEnd_append, lastSuccEnd_paceStep, lastSuccEnd]

/-- `callLLM_paced`, restated for one full client call. -/
theorem clientCall_paced (cfg : ClientCfg) (atts : Nat → Attempt)
    (st : CState) :
    pacedFrom cfg.requestDelay st.lastRequestTime
      (clientCall cfg atts st).2.1 = true ∧
    (clientCall cfg atts st).1.lastRequestTime =
      lastSuccEnd st.lastRequestTime (clientCall cfg atts st).2.1 :=
  callLLM_paced cfg atts cfg.maxRetries 0 st

/-- C7: across any sequence of calls through the same client instance,
every send starts at least the configured minimum spacing after the
completion of the latest earlier successful send (`last_request_time`
initially), and the final `last_request_time` is the completion time of the
latest successful send — it is updated only on success. -/
theorem client_spacing (cfg : ClientCfg) (calls : List (Nat → Attempt))
    (st : CState) :
    pacedFrom cfg.requestDelay st.lastRequestTime
      (clientCalls cfg calls st).2 = true ∧
    (clientCalls cfg calls st).1.lastRequestTime =
      lastSuccEnd st.lastRequestTime (clientCalls cfg calls st).2 := by
  induction calls generalizing st with
  | nil => exact ⟨rfl, rfl⟩
  | cons a rest ih =>
    rw [clientCalls]
    have h1 := clientCall_paced cfg a st
    have h2 := ih (clientCall cfg a st).1
    constructor
    · show pacedFrom cfg.requestDelay st.lastRequestTime
        ((clientCall cfg a st).2.1 ++
          (clientCalls cfg rest (clientCall cfg a st).1).2) = true
      rw [pacedFrom_append, Bool.and_eq_true]
      exact ⟨h1.1, by rw [← h1.2]; exact h2.1⟩
    · show (clientCalls cfg rest (clientCall cfg a st).1).1.lastRequestTime =
        lastSuccEnd st.lastRequestTime
          ((clientCall cfg a st).2.1 ++
            (clientCalls cfg rest (clientCall cfg a st).1).2)
      rw [lastSuccEnd_append, ← h1.2]
      exact h2.2

/- ### C1, C4, C5: the run loop -/

/-- Every step fails and no failure text trips the abort check: the loop
appends one error entry per step, keeps going, performs all `max_steps`
client invocations and ends with the exhaustion message. -/
theorem runSteps_allErrors (llm : Nat → Except Str Str)
    (exec : Str → Params → Except Str Str) (decode : Str → Option Params)
    (E : Nat → Str) :
    ∀ fuel i hist calls,
      (∀ j, i ≤ j → j < i + fuel → llm j = .error (E j)) →
      (∀ j, i ≤ j → j < i + fuel → breakText (E j) = false) →
      runSteps llm exec decode fuel i hist calls =
        ⟨maxStepsMsg,
         hist ++ (stepRange i fuel).map (fun j => errInStep j (E j)),
         calls + fuel⟩ := by
  intro fuel
  induction fuel with
  | zero => intro i hist calls _ _; simp [runSteps, stepRange]
  | succ f ih =>
    intro i hist calls hllm hbrk
    have hb : breakText (errInStep i (E i)) = false :=
      breakText_errInStep i (hbrk i (by omega) (by omega))
    rw [runSteps, hllm i (by omega) (by omega)]
    simp only [handleExc, hb, Bool.false_eq_true, if_false]
    rw [ih (i + 1) (hist ++ [errInStep i (E i)]) (calls + 1)
      (fun j h1 h2 => hllm j (by omega) (by omega))
      (fun j h1 h2 => hbrk j (by omega) (by omega))]
    simp only [stepRange, List.map_cons, List.append_assoc, List.cons_append,
      List.nil_append, RunResult.mk.injEq, true_and]
    omega

/-- C4 counterexample: with `max_steps = 2`, a non-rate-limit model failure
at step 1 does not abort the run — a second model call is attempted, and
here it even produces the final answer. -/
theorem non_rate_limit_error_counterexample :
    (runAgent (fun i => if i = 0 then .error "boom".data
        else .ok "FINAL ANSWER: done".data) execOk (fun _ => none)
      2 "q".data).llmCalls = 2 ∧
    (runAgent (fun i => if i = 0 then .error "boom".data
        else .ok "FINAL ANSWER: done".data) execOk (fun _ => none)
      2 "q".data).answer = "done".data := by
  decide

/-- C4 amended: a non-rate-limit model failure is propagated by the client
without retry (one send, no backoff sleep), and the loop appends an error
entry and continues with the next step — it aborts only when the failure
text mentions a rate limit or quota; failing every step this way still
consumes the whole step budget. -/
theorem non_rate_limit_error_handling :
    (∀ (cfg : ClientCfg) (atts : Nat → Attempt) (e : Str) (st : CState),
      (atts 0).outcome = .error e → is429OrQuota e = false →
      1 ≤ cfg.maxRetries →
      (clientCall cfg atts st).2.2 = .error e ∧
      (sendStarts (clientCall cfg atts st).2.1).length = 1 ∧
      backoffs (clientCall cfg atts st).2.1 = []) ∧
    (∀ (llm : Nat → Except Str Str)
      (exec : Str → Params → Except Str Str) (decode : Str → Option Params)
      (maxSteps : Nat) (query : Str) (E : Nat → Str),
      (∀ i, i < maxSteps → llm i = .error (E i)) →
      (∀ i, i < maxSteps → breakText (E i) = false) →
      runAgent llm exec decode maxSteps query =
        ⟨maxStepsMsg,
         ("User Query: ".data ++ query) ::
           (stepRange 0 maxSteps).map (fun j => errInStep j (E j)),
         maxSteps⟩) := by
  constructor
  · intro cfg atts e st hout hq hmr
    rcases hc : cfg.maxRetries with _ | mr
    · omega
    rw [clientCall, hc, callLLM, hout]
    refine ⟨?_, ?_, ?_⟩
    · simp only [hq, Bool.false_eq_true, if_false]
    · simp only [hq, Bool.false_eq_true, if_false]
      rw [sendStarts_append, sendStarts_paceStep]
      rfl
    · simp only [hq, Bool.false_eq_true, if_false]
      rw [backoffs_append, backoffs_paceStep]
      rfl
  · intro llm exec decode maxSteps query E hllm hbrk
    rw [runAgent, runSteps_allErrors llm exec decode E maxSteps 0 _ 0
      (by intro j h1 h2; exact hllm j (by omega))
      (by intro j h1 h2; exact hbrk j (by omega))]
    simp

/-- C4 witness: a concrete all-failing run (`boom` at every step, budget 2)
and a concrete client call propagating `boom` unchanged after one send. -/
theorem non_rate_limit_error_handling_witness :
    (clientCall ⟨2, 3⟩ (fun _ => ⟨0, 0, .error "boom".data⟩) ⟨0, 0⟩).2.2 =
      .error "boom".data ∧
    runAgent (fun _ => .error "boom".data) execOk (fun _ => none) 2 "q".data =
      ⟨maxStepsMsg,
       ("User Query: ".data ++ "q".data) ::
         (stepRange 0 2).map (fun j => errInStep j "boom".data),
       2⟩ :=
  ⟨(non_rate_limit_error_handling.1 ⟨2, 3⟩
      (fun _ => ⟨0, 0, .error "boom".data⟩) "boom".data ⟨0, 0⟩ rfl
      (by decide) (by decide)).1,
   non_rate_limit_error_handling.2 (fun _ => .error "boom".data) execOk
     (fun _ => none) 2 "q".data (fun _ => "boom".data) (fun i _ => rfl)
     (fun i _ => by show breakText "boom".data = false; decide)⟩

/-- C5 counterexample: a run aborted by rate-limit exhaustion returns
exactly the same fixed text as a run that exhausts its step budget
normally — the abort message is not distinct. -/
theorem rate_limit_abort_message_counterexample :
    (runAgent (fun _ => .error (rlExceededMsg 3)) execOk (fun _ => none)
      5 "q".data).answer = maxStepsMsg ∧
    (runAgent (fun _ => .ok "THOUGHT: still thinking".data) execOk
      (fun _ => none) 5 "q".data).answer = maxStepsMsg := by
  decide

/-- C5 amended: when the client exhausts its retry budget on rate limits,
`run` does not raise: it appends the rate-limit error to the transcript,
stops looping, and returns the same fixed maximum-steps message that step
budget exhaustion produces (the transcript, not the return value, records
the rate-limit failure). -/
theorem run_rate_limit_abort (llm : Nat → Except Str Str)
    (exec : Str → Params → Except Str Str) (decode : Str → Option Params)
    (maxSteps : Nat) (query : Str) (mr : Nat) (hms : 1 ≤ maxSteps)
    (h : llm 0 = .error (rlExceededMsg mr)) :
    runAgent llm exec decode maxSteps query =
      ⟨maxStepsMsg,
       ["User Query: ".data ++ query, errInStep 0 (rlExceededMsg mr)],
       1⟩ := by
  rcases maxSteps with _ | fuel
  · omega
  rw [runAgent, runSteps, h]
  simp only [handleExc, breakText_errInStep_rl 0 mr, if_true]
  rfl

/-- C5 witness: a concrete aborted run. -/
theorem run_rate_limit_abort_witness :
    runAgent (fun _ => .error (rlExceededMsg 3)) execOk (fun _ => none)
      10 "q".data =
      ⟨maxStepsMsg,
       ["User Query: ".data ++ "q".data, errInStep 0 (rlExceededMsg 3)],
       1⟩ :=
  run_rate_limit_abort (fun _ => .error (rlExceededMsg 3)) execOk
    (fun _ => none) 10 "q".data 3 (by omega) rfl

/-- Loop induction for C1: if every remaining model call succeeds with a
response that does not parse to the `FINAL_ANSWER` action, and no tool
error text trips the abort check, the loop consumes its entire budget and
ends with the exhaustion message. -/
theorem runSteps_no_final (llm : Nat → Except Str Str)
    (exec : Str → Params → Except Str Str) (decode : Str → Option Params)
    (hexec : ∀ a p e, exec a p = .error e → breakText e = false) :
    ∀ fuel i hist calls,
      (∀ j, i ≤ j → j < i + fuel → ∃ r, llm j = .ok r ∧
        (parseLLMResponse decode r).2.1 ≠ some finalActionName) →
      (runSteps llm exec decode fuel i hist calls).answer = maxStepsMsg ∧
      (runSteps llm exec decode fuel i hist calls).llmCalls = calls + fuel := by
  intro fuel
  induction fuel with
  | zero => intro i hist calls _; exact ⟨rfl, rfl⟩
  | succ f ih =>
    intro i hist calls hok
    obtain ⟨r, hr, hne⟩ := hok i (le_refl i) (by omega)
    have IH : ∀ H, (runSteps llm exec decode f (i + 1) H (calls + 1)).answer
          = maxStepsMsg ∧
        (runSteps llm exec decode f (i + 1) H (calls + 1)).llmCalls
          = calls + 1 + f :=
      fun H => ih (i + 1) H (calls + 1)
        (by intro j h1 h2; exact hok j (by omega) (by omega))
    rcases hp : parseLLMResponse decode r with ⟨t, act, ps⟩
    rw [hp] at hne
    rcases act with _ | a
    · simp only [runSteps, hr, hp]
      exact ⟨(IH _).1, by rw [(IH _).2]; omega⟩
    · have ha : a ≠ finalActionName := fun he => hne (by rw [he])
      by_cases hae : a.isEmpty = true
      · simp only [runSteps, hr, hp, if_neg ha, if_pos hae]
        exact ⟨(IH _).1, by rw [(IH _).2]; omega⟩
      · rcases ps with _ | p
        · simp only [runSteps, hr, hp, if_neg ha, if_neg hae]
          exact ⟨(IH _).1, by rw [(IH _).2]; omega⟩
        · cases hex : exec a p with
          | ok obs =>
            simp only [runSteps, hr, hp, if_neg ha, if_neg hae, hex]
            exact ⟨(IH _).1, by rw [(IH _).2]; omega⟩
          | error e =>
            have hb : breakText (errInStep i e) = false :=
              breakText_errInStep i (hexec a p e hex)
            simp only [runSteps, hr, hp, if_neg ha, if_neg hae, hex,
              handleExc, hb, Bool.false_eq_true, if_false]
            exact ⟨(IH _).1, by rw [(IH _).2]; omega⟩

/-- C1 counterexample: a model response `ACTION: FINAL_ANSWER{"answer": "42"}`
contains no `FINAL ANSWER:` marker, every model call succeeds, and yet a
2-step run returns `42` after a single model invocation — not the fixed
exhaustion message after exactly `max_steps` calls.  (The decoder is
instantiated to agree with `json.loads` on the one blob reached.) -/
theorem run_exhausts_step_budget_counterexample :
    containsSub finalMarker
      (lowerStr "ACTION: FINAL_ANSWER\x7b\"answer\": \"42\"\x7d".data) = false ∧
    (runAgent (fun _ => .ok "ACTION: FINAL_ANSWER\x7b\"answer\": \"42\"\x7d".data)
      execOk
      (fun b => if b = "\x7b\"answer\": \"42\"\x7d".data
        then some [("answer".data, "42".data)] else none)
      2 "q".data).llmCalls = 1 ∧
    (runAgent (fun _ => .ok "ACTION: FINAL_ANSWER\x7b\"answer\": \"42\"\x7d".data)
      execOk
      (fun b => if b = "\x7b\"answer\": \"42\"\x7d".data
        then some [("answer".data, "42".data)] else none)
      2 "q".data).answer = "42".data := by
  decide

/-- C1 amended: for every run in which every model call succeeds and no
model response parses to a `FINAL_ANSWER` decision (in particular none
contains a `FINAL ANSWER:` marker, and none carries an
`ACTION: FINAL_ANSWER{...}` tool call that decodes), and no tool invocation
raises an error text mentioning a rate limit or quota, `run` performs
exactly `max_steps` model invocations and returns the fixed
maximum-steps-reached message. -/
theorem run_exhausts_step_budget (llm : Nat → Except Str Str)
    (exec : Str → Params → Except Str Str) (decode : Str → Option Params)
    (maxSteps : Nat) (query : Str)
    (hok : ∀ i, i < maxSteps → ∃ r, llm i = .ok r ∧
      (parseLLMResponse decode r).2.1 ≠ some finalActionName)
    (hexec : ∀ a p e, exec a p = .error e → breakText e = false) :
    (runAgent llm exec decode maxSteps query).answer = maxStepsMsg ∧
    (runAgent llm exec decode maxSteps query).llmCalls = maxSteps := by
  rw [runAgent]
  have h := runSteps_no_final llm exec decode hexec maxSteps 0
    ["User Query: ".data ++ query] 0
    (by intro j h1 h2; exact hok j (by omega))
  exact ⟨h.1, by rw [h.2]; omega⟩

/-- C1 witness: two steps of thought-only responses exhaust a budget of 2
and yield the fixed message. -/
theorem run_exhausts_step_budget_witness :
    (runAgent (fun _ => .ok "THOUGHT: hi".data) execOk (fun _ => none)
      2 "q".data).answer = maxStepsMsg ∧
    (runAgent (fun _ => .ok "THOUGHT: hi".data) execOk (fun _ => none)
      2 "q".data).llmCalls = 2 :=
  run_exhausts_step_budget (fun _ => .ok "THOUGHT: hi".data) execOk
    (fun _ => none) 2 "q".data
    (fun i _ => ⟨"THOUGHT: hi".data, rfl, by decide⟩)
    (fun a p e h => by simp [execOk] at h)

end SQLAgent
